import Mathlib

/-!
Verification of the capture-and-normalization pipeline of playwright-request-mocker,
shallowly embedded from `src/recorder.ts`. The JS string and JSON builtins the code
relies on are modelled executably on `List Char`; the Playwright/fs collaborators of
`recordHar` are modelled by an environment of step outcomes and an action trace.
-/

namespace PRM

/-- Prefix test on character lists: `begins pat s` is true when `pat` is an initial
segment of `s` (the position-0 case of a JS substring search). -/
def begins : List Char → List Char → Bool
  | [], _ => true
  | p :: ps, s =>
    match s with
    | [] => false
    | c :: cs => p == c && begins ps cs

/-- Substring occurrence test on character lists; models JS `String.prototype.includes`. -/
def containsSeg (pat : List Char) : List Char → Bool
  | [] => pat.isEmpty
  | c :: cs => begins pat (c :: cs) || containsSeg pat cs

/-- Models JS `s.includes(sub)`. -/
def jsIncludes (s sub : String) : Bool := containsSeg sub.data s.data

/-- Replace the first occurrence of a non-empty `pat` in a character list. -/
def replFirst (pat rep : List Char) : List Char → List Char
  | [] => []
  | c :: cs =>
    if begins pat (c :: cs) then rep ++ (c :: cs).drop pat.length
    else c :: replFirst pat rep cs

/-- Models JS `s.replace(pat, rep)` for a string pattern: only the first occurrence
is replaced; an empty pattern inserts `rep` at the start, as JS does. -/
def jsReplace (s pat rep : String) : String :=
  if pat.data.isEmpty then ⟨rep.data ++ s.data⟩ else ⟨replFirst pat.data rep.data s.data⟩

/-- JSON values as produced by the JS `JSON.parse` builtin (numbers restricted to the
integer literals this development exercises). -/
inductive Json where
  | null
  | bool (b : Bool)
  | num (n : Int)
  | str (s : String)
  | arr (elems : List Json)
  | obj (fields : List (String × Json))

/-- Whitespace accepted between tokens by `JSON.parse`. -/
def isJsonWs (c : Char) : Bool := c == ' ' || c == '\t' || c == '\n' || c == '\r'

def skipWs (s : List Char) : List Char := s.dropWhile isJsonWs

/-- Reads the body of a JSON string literal up to the closing quote (escape sequences
are rejected; none occur in the payloads modelled here). -/
def parseStrAux : List Char → Option (List Char × List Char)
  | [] => none
  | '\"' :: r => some ([], r)
  | '\\' :: _ => none
  | c :: r => (parseStrAux r).map (fun p => (c :: p.1, p.2))

/-- Reads a natural-number literal (no leading zeros, per the JSON grammar). -/
def parseNatAux (s : List Char) : Option (Nat × List Char) :=
  match s.takeWhile Char.isDigit, s.dropWhile Char.isDigit with
  | [], _ => none
  | '0' :: _ :: _, _ => none
  | ds, r => some (ds.foldl (fun n c => n * 10 + (c.toNat - 48)) 0, r)

/-- Reads a JSON number (integer fragment). -/
def parseNum (s : List Char) : Option (Json × List Char) :=
  match s with
  | '-' :: r => (parseNatAux r).map (fun p => (Json.num (-(p.1 : Int)), p.2))
  | _ => (parseNatAux s).map (fun p => (Json.num (p.1 : Int), p.2))

/-- Parser modes: a value, the tail of an array, or the stages of an object. -/
inductive PMode where
  | val
  | arrTail (acc : List Json)
  | objStart
  | objField (acc : List (String × Json))
  | objTail (acc : List (String × Json))

/-- Fuel-indexed recursive-descent JSON parser; every recursive call structurally
decreases the fuel, so the definition reduces in the kernel. -/
def parseStep : Nat → PMode → List Char → Option (Json × List Char)
  | 0, _, _ => none
  | fuel + 1, PMode.val, s0 =>
    match skipWs s0 with
    | 'n' :: 'u' :: 'l' :: 'l' :: r => some (Json.null, r)
    | 't' :: 'r' :: 'u' :: 'e' :: r => some (Json.bool true, r)
    | 'f' :: 'a' :: 'l' :: 's' :: 'e' :: r => some (Json.bool false, r)
    | '\"' :: r => (parseStrAux r).map (fun p => (Json.str ⟨p.1⟩, p.2))
    | '[' :: r =>
      (match skipWs r with
       | ']' :: r2 => some (Json.arr [], r2)
       | s1 => (parseStep fuel PMode.val s1).bind
           (fun p => parseStep fuel (PMode.arrTail [p.1]) p.2))
    | '\x7b' :: r => parseStep fuel PMode.objStart r
    | s => parseNum s
  | fuel + 1, PMode.arrTail acc, s0 =>
    match skipWs s0 with
    | ']' :: r => some (Json.arr acc.reverse, r)
    | ',' :: r => (parseStep fuel PMode.val r).bind
        (fun p => parseStep fuel (PMode.arrTail (p.1 :: acc)) p.2)
    | _ => none
  | fuel + 1, PMode.objStart, s0 =>
    match skipWs s0 with
    | '\x7d' :: r => some (Json.obj [], r)
    | s => parseStep fuel (PMode.objField []) s
  | fuel + 1, PMode.objField acc, s0 =>
    match skipWs s0 with
    | '\"' :: r =>
      (parseStrAux r).bind (fun kp =>
        match skipWs kp.2 with
        | ':' :: r2 => (parseStep fuel PMode.val r2).bind
            (fun p => parseStep fuel (PMode.objTail ((⟨kp.1⟩, p.1) :: acc)) p.2)
        | _ => none)
    | _ => none
  | fuel + 1, PMode.objTail acc, s0 =>
    match skipWs s0 with
    | '\x7d' :: r => some (Json.obj acc.reverse, r)
    | ',' :: r => parseStep fuel (PMode.objField acc) r
    | _ => none

/-- Models the JS builtin `JSON.parse` on the integer/ASCII JSON fragment: parses one
value and requires only trailing whitespace; `none` models a thrown SyntaxError. -/
def jsonParse (s : String) : Option Json :=
  (parseStep (2 * s.data.length + 2) PMode.val s.data).bind
    (fun p => if (skipWs p.2).isEmpty then some p.1 else none)

/-- Value of one base64 alphabet character. -/
def b64Val (c : Char) : Option Nat :=
  if 65 ≤ c.toNat ∧ c.toNat ≤ 90 then some (c.toNat - 65)
  else if 97 ≤ c.toNat ∧ c.toNat ≤ 122 then some (c.toNat - 71)
  else if 48 ≤ c.toNat ∧ c.toNat ≤ 57 then some (c.toNat + 4)
  else if c == '+' then some 62
  else if c == '/' then some 63
  else none

/-- Regroups 6-bit values into bytes (base64 decoding core). -/
def b64Bytes : List Nat → List Nat
  | a :: b :: c :: d :: rest =>
    (a * 4 + b / 16) :: ((b % 16) * 16 + c / 4) :: ((c % 4) * 64 + d) :: b64Bytes rest
  | [a, b] => [a * 4 + b / 16]
  | [a, b, c] => [a * 4 + b / 16, (b % 16) * 16 + c / 4]
  | _ => []

/-- Models `Buffer.from(s, "base64").toString()` for ASCII payloads; characters
outside the alphabet (including padding) are skipped, as Node's decoder does. -/
def base64DecodeToString (s : String) : String :=
  ⟨(b64Bytes (s.data.filterMap b64Val)).map Char.ofNat⟩

/-- Request body as captured in the HAR entry (`request.postData`). -/
structure PostData where
  text : Option String

/-- Captured request of one HAR entry (the fields `readHarFile` touches; the rest of
the HAR request object is irrelevant to the pipeline). -/
structure HarRequest where
  url : String
  postData : Option PostData

/-- Captured response content of one HAR entry. -/
structure HarContent where
  text : Option String
  mimeType : String

structure HarResponse where
  content : HarContent

/-- One captured exchange (the spec's RawTraceEntry). -/
structure HarEntry where
  request : HarRequest
  response : HarResponse

structure HarLog where
  entries : List HarEntry

/-- The parsed HAR artifact; `result.log.entries` is what `readHarFile` reads. -/
structure HAR where
  log : HarLog

/-- The persisted unit (`RecordRequest` from src/models.ts, reconstructed from its use
in `readHarFile`): an object with fields url, request, requestData, response. -/
structure RecordRequest where
  url : String
  request : HarRequest
  requestData : Json
  response : Json

/-- Character class matched by the JS regex `.` wildcard (anything but a line
terminator). -/
def isRegexDot (c : Char) : Bool :=
  !(c == '\n') && !(c == '\r') && !(c == '\u2028') && !(c == '\u2029')

/-- Tests whether `word` occurs preceded by one wildcard character: the meaning of
the unescaped fragment `.word` in the URL regex of `readHarFile`. -/
def dotWordTest (word : List Char) : List Char → Bool
  | [] => false
  | c :: rest => (isRegexDot c && begins word rest) || dotWordTest word rest

/-- Models `/(.png)|(.jpeg)|(.webp)|(.jpg)|(.gif)|(.css)|(.js)|(.woff2)/.test(url)`
from recorder.ts line 26 (the dots are unescaped regex wildcards). -/
def urlAssetTest (url : String) : Bool :=
  ["png", "jpeg", "webp", "jpg", "gif", "css", "js", "woff2"].any
    (fun w => dotWordTest w.data url.data)

/-- Models `/(image)|(font)|(javascript)/.test(e.response.content.mimeType)` from
recorder.ts line 29; an unanchored alternation of plain words is a substring test. -/
def mimeAssetTest (mimeType : String) : Bool :=
  jsIncludes mimeType "image" || jsIncludes mimeType "font"
    || jsIncludes mimeType "javascript"

/-- The entry filter of `readHarFile` (recorder.ts lines 21-31). -/
def keepEntry (host : String) (e : HarEntry) : Bool :=
  !(jsIncludes e.request.url host) && !(urlAssetTest e.request.url)
    && !(mimeAssetTest e.response.content.mimeType)

/-- Modelled from the spec: `endpointOfUrl` lives in src/utils.ts, which is not among
the sources; the spec defines the endpoint as the path component of the request URL
with scheme, host and query stripped. -/
def endpointOfUrl (url : String) : String :=
  let rest := jsReplace (jsReplace url "https://" "") "http://" ""
  ⟨(rest.data.dropWhile (fun c => !(c == '/'))).takeWhile (fun c => !(c == '?'))⟩

/-- The string handed to `JSON.parse` for the request body, per recorder.ts line 40:
`request?.postData?.text || "{}"` (absent or empty text falls back to `{}`). -/
def requestBodyString (e : HarEntry) : String :=
  match e.request.postData with
  | none => "\x7b\x7d"
  | some pd =>
    match pd.text with
    | none => "\x7b\x7d"
    | some t => if t == "" then "\x7b\x7d" else t

/-- The string handed to `JSON.parse` for the response body, per recorder.ts lines
33-35: `response.content.text ? Buffer.from(text, "base64").toString() : "{}"`. -/
def responseBodyString (e : HarEntry) : String :=
  match e.response.content.text with
  | none => "\x7b\x7d"
  | some t => if t == "" then "\x7b\x7d" else base64DecodeToString t

/-- The per-entry mapping of `readHarFile` (recorder.ts lines 32-43); `none` when one
of the two `JSON.parse` calls throws. -/
def toRecord (e : HarEntry) : Option RecordRequest :=
  match jsonParse (requestBodyString e), jsonParse (responseBodyString e) with
  | some rq, some rs => some ⟨endpointOfUrl e.request.url, e.request, rq, rs⟩
  | _, _ => none

/-- A map that fails as soon as one element fails: `Array.prototype.map` with a
callback that can throw. -/
def mapThrow {α β : Type} (f : α → Option β) : List α → Option (List β)
  | [] => some []
  | a :: as => (f a).bind fun b => (mapThrow f as).map fun bs => b :: bs

/-- Core of `readHarFile` (recorder.ts lines 20-44): filter the entries, then build
one RecordRequest per survivor; the fs read and the JSON decoding of the artifact
file itself are handled by the caller model (`recordHar`). -/
def readHarFile (har : HAR) (host : String) : Option (List RecordRequest) :=
  mapThrow toRecord (har.log.entries.filter (keepEntry host))

/-- The host string `recordHar` passes to `readHarFile` (recorder.ts line 88):
`route.replace("https://", "").replace("http://", "").split("/")[0]`. -/
def hostOfRoute (route : String) : String :=
  ⟨((jsReplace (jsReplace route "https://" "") "http://" "").data.takeWhile
      (fun c => !(c == '/')))⟩

/-- The transient artifact path (recorder.ts line 55):
`filePath.replace(".json", ".temp.har")`. -/
def harPathOf (filePath : String) : String :=
  jsReplace filePath ".json" ".temp.har"

/-- Outcome of each external collaborator step (Playwright browser, operator pause,
fs), plus the parsed content of the HAR artifact when the read succeeds. -/
structure Env where
  launchOk : Bool
  newPageOk : Bool
  gotoOk : Bool
  pauseOk : Bool
  closeOk : Bool
  waitOk : Bool
  readOk : Bool
  harContent : HAR
  writeOk : Bool
  removeOk : Bool

/-- Errors a `recordHar` invocation can surface: the TypeError thrown by
`filePath.replace` when `filePath` is undefined, or a failed collaborator step. -/
inductive JsError where
  | typeError
  | stepFailure (step : String)

/-- Observable effects of `recordHar`, in program order. -/
inductive Action where
  | launch (harPath : String)
  | newPage
  | goto (route : String)
  | pause
  | closeBrowser
  | waitForFile (path : String)
  | readFile (path : String)
  | writeMocks (path : String) (content : Json)
  | removeFile (path : String)

/-- Modelled from the spec: JSON serialization of the captured request as persisted
by `writeFile` (src/utils.ts, not among the sources). -/
def requestJson (r : HarRequest) : Json :=
  Json.obj (("url", Json.str r.url) ::
    (match r.postData with
     | none => []
     | some pd =>
       [("postData", Json.obj (match pd.text with
         | none => []
         | some t => [("text", Json.str t)]))]))

/-- Modelled from the spec: each persisted object has exactly the fields url,
request, requestData, response. -/
def recordJson (r : RecordRequest) : Json :=
  Json.obj [("url", Json.str r.url), ("request", requestJson r.request),
    ("requestData", r.requestData), ("response", r.response)]

/-- Modelled from the spec: the persisted mock-set file is a JSON array of the
record objects, in order. -/
def mocksFileJson (rs : List RecordRequest) : Json :=
  Json.arr (rs.map recordJson)

/-- The catch block of `recordHar` (recorder.ts lines 95-99): log the error, then
remove the transient artifact; a failure of that removal itself escapes the catch.
`requests` is whatever the variable holds when the try block threw. -/
def catchPhase (requests : List RecordRequest) (acts : List Action) (harPath : String)
    (env : Env) : Except JsError (List RecordRequest) × List Action :=
  if env.removeOk then (Except.ok requests, acts ++ [Action.removeFile harPath])
  else (Except.error (JsError.stepFailure "removeFile"), acts ++ [Action.removeFile harPath])

/-- The try/catch processing phase of `recordHar` (recorder.ts lines 79-99): wait on
`filePath` (the final mocks path, exactly as the code does), read and normalize the
HAR at `harPath`, persist to `filePath`, then remove the artifact. -/
def processRecording (route fp harPath : String) (env : Env) :
    Except JsError (List RecordRequest) × List Action :=
  if env.waitOk = false then catchPhase [] [Action.waitForFile fp] harPath env
  else if env.readOk = false then
    catchPhase [] [Action.waitForFile fp, Action.readFile harPath] harPath env
  else
    match readHarFile env.harContent (hostOfRoute route) with
    | none => catchPhase [] [Action.waitForFile fp, Action.readFile harPath] harPath env
    | some rs =>
      if env.writeOk = false then
        catchPhase rs [Action.waitForFile fp, Action.readFile harPath,
          Action.writeMocks fp (mocksFileJson rs)] harPath env
      else if env.removeOk = false then
        catchPhase rs [Action.waitForFile fp, Action.readFile harPath,
          Action.writeMocks fp (mocksFileJson rs), Action.removeFile harPath] harPath env
      else
        (Except.ok rs, [Action.waitForFile fp, Action.readFile harPath,
          Action.writeMocks fp (mocksFileJson rs), Action.removeFile harPath])

/-- `recordHar` after the transient path is derived: the Playwright session steps
(recorder.ts lines 57-77, all outside the try block, so any failure there
propagates), then the processing phase. -/
def recordHarLaunched (route fp harPath : String) (env : Env) :
    Except JsError (List RecordRequest) × List Action :=
  if env.launchOk = false then (Except.error (JsError.stepFailure "launch"), []) else
  if env.newPageOk = false then
    (Except.error (JsError.stepFailure "newPage"), [Action.newPage]) else
  if env.gotoOk = false then
    (Except.error (JsError.stepFailure "goto"), [Action.newPage, Action.goto route]) else
  if env.pauseOk = false then
    (Except.error (JsError.stepFailure "pause"),
      [Action.newPage, Action.goto route, Action.pause]) else
  if env.closeOk = false then
    (Except.error (JsError.stepFailure "close"),
      [Action.newPage, Action.goto route, Action.pause, Action.closeBrowser]) else
  ((processRecording route fp harPath env).1,
    [Action.newPage, Action.goto route, Action.pause, Action.closeBrowser]
      ++ (processRecording route fp harPath env).2)

/-- Model of `recordHar` (recorder.ts lines 50-102). An absent `filePath` makes
`filePath.replace(".json", ".temp.har")` throw a TypeError before any session is
opened or file is touched. -/
def recordHar (route : String) (filePath : Option String) (env : Env) :
    Except JsError (List RecordRequest) × List Action :=
  match filePath with
  | none => (Except.error JsError.typeError, [])
  | some fp =>
    ((recordHarLaunched route fp (harPathOf fp) env).1,
      Action.launch (harPathOf fp) :: (recordHarLaunched route fp (harPathOf fp) env).2)

/-- An empty parsed HAR. -/
def emptyHar : HAR := ⟨⟨[]⟩⟩

/-- All collaborator steps succeed; the artifact parses to an empty HAR. -/
def envBase : Env := ⟨true, true, true, true, true, true, true, emptyHar, true, true⟩

theorem begins_append (pat t : List Char) : begins pat (pat ++ t) = true := by
  induction pat with
  | nil => rfl
  | cons a as ih => simp [begins, ih]

theorem containsSeg_nil_pat (s : List Char) : containsSeg [] s = true := by
  cases s <;> simp [containsSeg, begins]

theorem containsSeg_self_append (pat b a : List Char) :
    containsSeg pat (a ++ (pat ++ b)) = true := by
  induction a with
  | nil =>
    cases pat with
    | nil => simpa using containsSeg_nil_pat b
    | cons p ps =>
      have hb := begins_append (p :: ps) b
      simp only [List.cons_append] at hb
      simp [containsSeg, hb]
  | cons c cs ih => simp [containsSeg, ih]

theorem begins_length {pat s : List Char} (h : begins pat s = true) :
    pat.length ≤ s.length := by
  induction pat generalizing s with
  | nil => simp
  | cons a as ih =>
    cases s with
    | nil => simp [begins] at h
    | cons b bs =>
      simp only [begins, Bool.and_eq_true] at h
      simpa using ih h.2

theorem replFirst_length (pat rep : List Char) (hpat : pat ≠ []) :
    ∀ s, containsSeg pat s = true →
      (replFirst pat rep s).length + pat.length = s.length + rep.length := by
  intro s
  induction s with
  | nil =>
    intro h
    simp only [containsSeg, List.isEmpty_iff] at h
    exact absurd h hpat
  | cons c cs ih =>
    intro h
    by_cases hb : begins pat (c :: cs) = true
    · have hle := begins_length hb
      simp only [replFirst, hb, if_true, List.length_append, List.length_drop]
      simp only [List.length_cons] at hle ⊢
      omega
    · have hb' : begins pat (c :: cs) = false := by
        cases hx : begins pat (c :: cs)
        · rfl
        · exact absurd hx hb
      have h2 : containsSeg pat cs = true := by
        simp only [containsSeg, hb', Bool.false_or] at h
        exact h
      have := ih h2
      simp only [replFirst, hb', Bool.false_eq_true, if_false, List.length_cons]
      omega

theorem mapThrow_mem {α β : Type} {f : α → Option β} :
    ∀ {l : List α} {out : List β}, mapThrow f l = some out →
      ∀ r ∈ out, ∃ a, a ∈ l ∧ f a = some r := by
  intro l
  induction l with
  | nil =>
    intro out h r hr
    simp only [mapThrow, Option.some.injEq] at h
    subst h
    simp at hr
  | cons a as ih =>
    intro out h r hr
    cases hfa : f a with
    | none => simp [mapThrow, hfa] at h
    | some b =>
      cases hrest : mapThrow f as with
      | none => simp [mapThrow, hfa, hrest] at h
      | some bs =>
        simp [mapThrow, hfa, hrest] at h
        subst h
        rcases List.mem_cons.mp hr with h1 | h1
        · exact ⟨a, List.mem_cons_self a as, h1 ▸ hfa⟩
        · obtain ⟨a2, ha2, hfa2⟩ := ih hrest r h1
          exact ⟨a2, List.mem_cons_of_mem a ha2, hfa2⟩

theorem mapThrow_get {α β : Type} {f : α → Option β} :
    ∀ {l : List α} {out : List β}, mapThrow f l = some out →
      out.length = l.length ∧
      ∀ i (h1 : i < l.length) (h2 : i < out.length),
        f (l.get ⟨i, h1⟩) = some (out.get ⟨i, h2⟩) := by
  intro l
  induction l with
  | nil =>
    intro out h
    simp only [mapThrow, Option.some.injEq] at h
    subst h
    exact ⟨rfl, fun i h1 _ => absurd h1 (by simp)⟩
  | cons a as ih =>
    intro out h
    cases hfa : f a with
    | none => simp [mapThrow, hfa] at h
    | some b =>
      cases hrest : mapThrow f as with
      | none => simp [mapThrow, hfa, hrest] at h
      | some bs =>
        simp [mapThrow, hfa, hrest] at h
        subst h
        obtain ⟨hlen, hget⟩ := ih hrest
        refine ⟨by simp [hlen], ?_⟩
        intro i h1 h2
        cases i with
        | zero => simpa using hfa
        | succ j =>
          have hj1 : j < as.length := by simpa using h1
          have hj2 : j < bs.length := by simpa using h2
          simpa using hget j hj1 hj2

theorem toRecord_some {e : HarEntry} {r : RecordRequest} (h : toRecord e = some r) :
    r.url = endpointOfUrl e.request.url ∧ r.request = e.request ∧
    jsonParse (requestBodyString e) = some r.requestData ∧
    jsonParse (responseBodyString e) = some r.response := by
  unfold toRecord at h
  cases h1 : jsonParse (requestBodyString e) with
  | none => rw [h1] at h; simp at h
  | some rq =>
    cases h2 : jsonParse (responseBodyString e) with
    | none => rw [h1, h2] at h; simp at h
    | some rs =>
      rw [h1, h2] at h
      simp only [Option.some.injEq] at h
      subst h
      exact ⟨rfl, rfl, rfl, rfl⟩

theorem readHarFile_mem {har : HAR} {host : String} {out : List RecordRequest}
    (h : readHarFile har host = some out) :
    ∀ r ∈ out, ∃ e, e ∈ har.log.entries ∧ keepEntry host e = true ∧ toRecord e = some r := by
  intro r hr
  obtain ⟨a, ha, hfa⟩ := mapThrow_mem h r hr
  exact ⟨a, (List.mem_filter.mp ha).1, (List.mem_filter.mp ha).2, hfa⟩

def c1Entry : HarEntry :=
  ⟨⟨"https://app.test/api/items", none⟩, ⟨⟨none, "application/json"⟩⟩⟩

def c2Entry : HarEntry :=
  ⟨⟨"https://api.example.com/styles", none⟩, ⟨⟨none, "text/css"⟩⟩⟩

def c2Har : HAR := ⟨⟨[c2Entry]⟩⟩

def c2wEntry : HarEntry :=
  ⟨⟨"https://cdn.example.com/logo.png", none⟩, ⟨⟨none, "image/png"⟩⟩⟩

/-- C1: for every captured trace and target origin, an entry whose request URL's host
equals the target origin's host (the URL being a well-formed http(s) URL whose
authority is exactly that host) is rejected by the `readHarFile` filter, and no
record of the resulting mock set stems from its URL. -/
theorem c1_same_host_excluded (route rest : String) (e : HarEntry)
    (hurl : e.request.url = "https://" ++ (hostOfRoute route ++ rest)
          ∨ e.request.url = "http://" ++ (hostOfRoute route ++ rest)) :
    keepEntry (hostOfRoute route) e = false ∧
    ∀ har out, readHarFile har (hostOfRoute route) = some out →
      ∀ r ∈ out, r.request.url ≠ e.request.url := by
  have hinc : jsIncludes e.request.url (hostOfRoute route) = true := by
    rcases hurl with hurl | hurl <;>
      (rw [hurl]
       show containsSeg (hostOfRoute route).data _ = true
       rw [String.data_append, String.data_append]
       exact containsSeg_self_append _ _ _)
  refine ⟨by simp [keepEntry, hinc], ?_⟩
  intro har out hrun r hr
  obtain ⟨e2, hmem, hkeep, hrec⟩ := readHarFile_mem hrun r hr
  have hreq := (toRecord_some hrec).2.1
  intro heq
  rw [hreq] at heq
  have hinc2 : jsIncludes e2.request.url (hostOfRoute route) = true := by
    rw [heq]; exact hinc
  simp [keepEntry, hinc2] at hkeep

/-- Witness for C1: the concrete same-origin entry `https://app.test/api/items` is
rejected when the capture route is `https://app.test/home`. -/
theorem c1_witness : keepEntry (hostOfRoute "https://app.test/home") c1Entry = false :=
  (c1_same_host_excluded "https://app.test/home" "/api/items" c1Entry
    (Or.inl (by decide))).1

/-- C2 counterexample: an entry whose response content-type is the stylesheet class
(`text/css`) but whose URL contains none of the extension patterns survives
normalization and appears in the mock set, so the claim that every entry matching a
static-asset class (image, font, stylesheet, script) is excluded is false. -/
theorem c2_counterexample :
    c2Entry.response.content.mimeType = "text/css" ∧
    readHarFile c2Har "app.test"
      = some [⟨"/styles", c2Entry.request, Json.obj [], Json.obj []⟩] :=
  ⟨rfl, rfl⟩

/-- C2 amended: an entry is excluded whenever its full URL matches one of the
wildcard-extension patterns (any character followed by png, jpeg, webp, jpg, gif,
css, js, woff2) or its response content-type contains image, font, or javascript;
every record of a produced mock set stems from some other, kept entry. -/
theorem c2_amended_asset_excluded (host : String) (e : HarEntry)
    (h : urlAssetTest e.request.url = true ∨ mimeAssetTest e.response.content.mimeType = true) :
    keepEntry host e = false ∧
    ∀ har out, readHarFile har host = some out →
      ∀ r ∈ out, ∃ e2, e2 ∈ har.log.entries ∧ keepEntry host e2 = true ∧
        toRecord e2 = some r ∧ e2 ≠ e := by
  have hkeep : keepEntry host e = false := by
    rcases h with h | h <;> simp [keepEntry, h]
  refine ⟨hkeep, ?_⟩
  intro har out hrun r hr
  obtain ⟨e2, hmem, hk2, hrec⟩ := readHarFile_mem hrun r hr
  refine ⟨e2, hmem, hk2, hrec, ?_⟩
  intro heq
  rw [heq, hkeep] at hk2
  exact Bool.false_ne_true hk2

/-- Witness for the amended C2: a concrete `.png` image entry is rejected. -/
theorem c2_witness : keepEntry "app.test" c2wEntry = false :=
  (c2_amended_asset_excluded "app.test" c2wEntry (Or.inl (by decide))).1

def envWaitFail : Env := ⟨true, true, true, true, true, false, true, emptyHar, true, true⟩

/-- C4 (evidence for the code bug): at a concrete first-time capture the flow polls
`waitForFileExists` on the FINAL mocks path `my.spec.mocks.json` — a file this very
flow only writes later — and never on the transient HAR artifact
`my.spec.mocks.temp.har`; when that wait fails the recording is discarded and an
empty mock set is returned, contradicting the claimed wait-on-the-artifact step. -/
theorem c4_wait_polls_final_path :
    recordHar "https://app.test/home" (some "my.spec.mocks.json") envWaitFail
      = (Except.ok [],
        [Action.launch "my.spec.mocks.temp.har", Action.newPage,
         Action.goto "https://app.test/home", Action.pause, Action.closeBrowser,
         Action.waitForFile "my.spec.mocks.json",
         Action.removeFile "my.spec.mocks.temp.har"]) ∧
    harPathOf "my.spec.mocks.json" = "my.spec.mocks.temp.har" ∧
    "my.spec.mocks.json" ≠ "my.spec.mocks.temp.har" := by
  refine ⟨rfl, rfl, ?_⟩
  decide

/-- C8 counterexample: with a `filePath` not containing ".json" the derived
"transient" HAR path equals the final mock-set path itself, and the capture session
records straight into it. -/
theorem c8_counterexample :
    harPathOf "trace.har" = "trace.har" ∧
    (recordHar "https://app.test/home" (some "trace.har") envBase).2.head?
      = some (Action.launch "trace.har") :=
  ⟨rfl, rfl⟩

/-- C8 amended: whenever `filePath` contains ".json", the transient HAR path the
session records to differs from the final mock-set path. -/
theorem c8_amended_distinct_paths (fp : String) (h : jsIncludes fp ".json" = true) :
    harPathOf fp ≠ fp ∧
    ∀ route env, (recordHar route (some fp) env).2.head?
      = some (Action.launch (harPathOf fp)) := by
  constructor
  · intro heq
    have hcont : containsSeg ".json".data fp.data = true := h
    have hlen := replFirst_length ".json".data ".temp.har".data (by decide) fp.data hcont
    have hdata : replFirst ".json".data ".temp.har".data fp.data = fp.data := by
      have e1 : (harPathOf fp).data = replFirst ".json".data ".temp.har".data fp.data := rfl
      rw [← e1, heq]
    rw [hdata] at hlen
    have h5 : (".json".data).length = 5 := rfl
    have h9 : (".temp.har".data).length = 9 := rfl
    rw [h5, h9] at hlen
    omega
  · intro route env
    rfl

/-- Witness for the amended C8 at the conventional mock path. -/
theorem c8_witness : harPathOf "a.mocks.json" ≠ "a.mocks.json" :=
  (c8_amended_distinct_paths "a.mocks.json" (by decide)).1

def c7Entry : HarEntry :=
  ⟨⟨"https://api.example.com/api/items?x=1", some ⟨some "\x7b\"q\":1\x7d"⟩⟩,
   ⟨⟨some "eyJpdGVtcyI6W119", "application/json"⟩⟩⟩

def c7Rec : RecordRequest :=
  ⟨"/api/items", c7Entry.request, Json.obj [("q", Json.num 1)],
   Json.obj [("items", Json.arr [])]⟩

def envC7 : Env := ⟨true, true, true, true, true, true, true, ⟨⟨[c7Entry]⟩⟩, true, true⟩

/-- C7: every record a surviving entry produces has url = the path of the request URL
(scheme/host/query stripped), request = the raw captured request, requestData = the
JSON parse of the request body (empty object when absent) and response = the JSON
parse of the base64-decoded response body (empty object when the body is absent);
and a successful flow persists to the mocks path exactly the JSON array of these
objects. -/
theorem c7_record_shape :
    (∀ e r, toRecord e = some r →
      r.url = endpointOfUrl e.request.url ∧ r.request = e.request ∧
      jsonParse (requestBodyString e) = some r.requestData ∧
      jsonParse (responseBodyString e) = some r.response ∧
      (e.request.postData = none → r.requestData = Json.obj []) ∧
      (e.response.content.text = none → r.response = Json.obj [])) ∧
    (∀ route fp env rs,
      env.launchOk = true → env.newPageOk = true → env.gotoOk = true →
      env.pauseOk = true → env.closeOk = true → env.waitOk = true → env.readOk = true →
      readHarFile env.harContent (hostOfRoute route) = some rs → env.writeOk = true →
      Action.writeMocks fp (mocksFileJson rs) ∈ (recordHar route (some fp) env).2) := by
  constructor
  · intro e r hrec
    obtain ⟨hu, hq, h3, h4⟩ := toRecord_some hrec
    refine ⟨hu, hq, h3, h4, ?_, ?_⟩
    · intro hpd
      have hbody : requestBodyString e = "\x7b\x7d" := by
        simp [requestBodyString, hpd]
      rw [hbody] at h3
      have hparse : jsonParse "\x7b\x7d" = some (Json.obj []) := rfl
      rw [hparse] at h3
      exact (Option.some_inj.mp h3).symm
    · intro htxt
      have hbody : responseBodyString e = "\x7b\x7d" := by
        simp [responseBodyString, htxt]
      rw [hbody] at h4
      have hparse : jsonParse "\x7b\x7d" = some (Json.obj []) := rfl
      rw [hparse] at h4
      exact (Option.some_inj.mp h4).symm
  · intro route fp env rs h1 h2 h3 h4 h5 hw hrd hread hwr
    have hacts : (recordHar route (some fp) env).2
        = Action.launch (harPathOf fp) ::
          ([Action.newPage, Action.goto route, Action.pause, Action.closeBrowser]
            ++ (processRecording route fp (harPathOf fp) env).2) := by
      simp [recordHar, recordHarLaunched, h1, h2, h3, h4, h5]
    have hmem : Action.writeMocks fp (mocksFileJson rs)
        ∈ (processRecording route fp (harPathOf fp) env).2 := by
      unfold processRecording
      rw [if_neg (by simp [hw]), if_neg (by simp [hrd])]
      rw [hread]
      simp only [hwr]
      by_cases hrm : env.removeOk = false
      · rw [if_pos hrm]
        unfold catchPhase
        cases hx : env.removeOk <;> simp
      · rw [if_neg hrm]
        simp
    rw [hacts]
    exact List.mem_cons_of_mem _ (List.mem_append_right _ hmem)

/-- Witness for C7 at a concrete captured entry and a concrete successful flow. -/
theorem c7_witness :
    c7Rec.url = endpointOfUrl c7Entry.request.url ∧
    Action.writeMocks "a.mocks.json" (mocksFileJson [c7Rec])
      ∈ (recordHar "https://app.test/home" (some "a.mocks.json") envC7).2 :=
  ⟨(c7_record_shape.1 c7Entry c7Rec rfl).1,
   c7_record_shape.2 "https://app.test/home" "a.mocks.json" envC7 [c7Rec]
     rfl rfl rfl rfl rfl rfl rfl rfl rfl⟩

def c9A : HarEntry :=
  ⟨⟨"https://api.example.com/a", none⟩, ⟨⟨none, "application/json"⟩⟩⟩

def c9B : HarEntry :=
  ⟨⟨"https://api.example.com/b", none⟩, ⟨⟨none, "application/json"⟩⟩⟩

def c9Har : HAR := ⟨⟨[c9A, c9B]⟩⟩

def c9Out : List RecordRequest :=
  [⟨"/a", c9A.request, Json.obj [], Json.obj []⟩,
   ⟨"/b", c9B.request, Json.obj [], Json.obj []⟩]

/-- C9: normalization preserves capture order: the filtered survivors are a sublist
of the raw entries (hence in original relative order), and the produced mock set
lists exactly their records at matching positions. -/
theorem c9_order_preserved (har : HAR) (host : String) (out : List RecordRequest)
    (h : readHarFile har host = some out) :
    List.Sublist (har.log.entries.filter (keepEntry host)) har.log.entries ∧
    out.length = (har.log.entries.filter (keepEntry host)).length ∧
    ∀ i (h1 : i < (har.log.entries.filter (keepEntry host)).length) (h2 : i < out.length),
      toRecord ((har.log.entries.filter (keepEntry host)).get ⟨i, h1⟩)
        = some (out.get ⟨i, h2⟩) := by
  have h' : mapThrow toRecord (har.log.entries.filter (keepEntry host)) = some out := h
  obtain ⟨hlen, hget⟩ := mapThrow_get h'
  exact ⟨List.filter_sublist _, hlen, fun i h1 h2 => hget i h1 h2⟩

/-- Witness for C9 at a concrete two-entry trace. -/
theorem c9_witness :
    c9Out.length = (c9Har.log.entries.filter (keepEntry "app.test")).length :=
  (c9_order_preserved c9Har "app.test" c9Out rfl).2.1

/-- C10: invoking `recordHar` without a `filePath` fails with the TypeError thrown by
`filePath.replace` at once: no browsing session is opened and no file is touched (the
action trace is empty). -/
theorem c10_missing_filepath (route : String) (env : Env) :
    recordHar route none env = (Except.error JsError.typeError, []) := rfl

end PRM
